import Mathlib

/-!
Shallow embedding of the deterministic procedural market-data simulator
(`src/utils/priceEngine.js`) and of the chart-data extension helpers
(`StockChart.js`), together with proofs of the specified properties.

Modelling conventions:
* JavaScript numbers are modelled by exact rationals (`ℚ`); 32-bit
  integer bit patterns by natural numbers below `2 ^ 32`.
* The ambient wall-clock day that the source reads through
  `todayDayNum()` (`Math.floor(Date.now() / 86400000)`) is passed as an
  explicit `today : ℤ` parameter to every function that transitively
  calls it.
* The transcendental host functions the code calls (`Math.sin`,
  `Math.exp`, and the `Math.sin`-based `seededRandom` of
  StockChart.js) are supplied as explicit function parameters, so all
  theorems quantify over every implementation satisfying the listed
  IEEE facts (for instance `Math.sin 0 = 0` and `0 ≤ Math.exp x`).
-/

/- ── 32-bit integer primitives ─────────────────────────────────────────── -/

/-- `x >>> 0` / ECMAScript `ToUint32`: the unsigned 32-bit pattern of an
integer. -/
def toUint32 (x : ℤ) : ℕ := (x % (4294967296 : ℤ)).toNat

/-- `Math.imul a b`: 32-bit multiply (low 32 bits of the product of the
two bit patterns). -/
def imul32 (a b : ℕ) : ℕ := a * b % 4294967296

/-- `(x >>> 16) ^ x` on a 32-bit pattern. -/
def xsr16 (x : ℕ) : ℕ := (x >>> 16) ^^^ x

/-- `rand2(a, b)` of priceEngine.js, as the exact final 32-bit pattern in
`[0, 2^32)`:
two-round xorshift-multiply avalanche of
`imul(a ^ 0xdeadbeef, 0x9e3779b9) + b`. -/
def rand2u (a b : ℤ) : ℕ :=
  let x0 := (imul32 (toUint32 a ^^^ 0xdeadbeef) 0x9e3779b9 + toUint32 b) % 4294967296
  let x1 := imul32 (xsr16 x0) 0x45d9f3b
  let x2 := imul32 (xsr16 x1) 0x45d9f3b
  xsr16 x2

/-- `rand2(a, b)`: the returned float in `[0, 1)` — the final pattern
divided by `4294967296` (exact in double precision). -/
def rand2 (a b : ℤ) : ℚ := (rand2u a b : ℚ) / 4294967296

/-- `symbolSeed(symbol)`: FNV-1a 32-bit hash of the symbol string.
`charCodeAt` agrees with `Char.toNat` on the BMP strings (plain ASCII
tickers) this simulator is used with. -/
def symbolSeed (symbol : String) : ℕ :=
  symbol.data.foldl (fun h c => imul32 (h ^^^ c.toNat) 0x01000193) 0x811c9dc5

/- ── Smooth noise ──────────────────────────────────────────────────────── -/

/-- `smoothNoise(symHash, channel, t, period)`: smoothstep-interpolated
noise stream.  `Math.floor (t / period)` is floor division
(`Int.fdiv`). -/
def smoothNoise (symHash channel : ℕ) (t period : ℤ) : ℚ :=
  let b0 := Int.fdiv t period
  let frac : ℚ := ((t : ℚ) - (b0 : ℚ) * (period : ℚ)) / (period : ℚ)
  let seed := symHash ^^^ channel
  let v0 := rand2 (seed : ℤ) b0 * 2 - 1
  let v1 := rand2 (seed : ℤ) (b0 + 1) * 2 - 1
  let u := frac * frac * (3 - 2 * frac)
  v0 + (v1 - v0) * u

/- ── Day-level prices ──────────────────────────────────────────────────── -/

/-- The per-day drift factor `1 + r * 0.015` (with
`r = rand2(symHash ^ 0x44455455, d) * 2 - 1`) that one backward step of
`getDayOpenPrice` divides by. -/
def stepFactor (symHash : ℕ) (d : ℤ) : ℚ :=
  1 + (rand2 ((symHash ^^^ 0x44455455 : ℕ) : ℤ) d * 2 - 1) * 0.015

/-- One iteration of the backward walk in `getDayOpenPrice`:
`price /= (1 + r * 0.015); if (price <= 0) price = basePrice * 0.3`. -/
def stepDay (symHash : ℕ) (basePrice price : ℚ) (d : ℤ) : ℚ :=
  let p := price / stepFactor symHash d
  if p ≤ 0 then basePrice * 0.3 else p

/-- The walk `for (let d = today; d > dayNum; d--) …` after `n`
iterations: iteration `k` (0-based) runs with `d = today - k`. -/
def walkAux (symHash : ℕ) (basePrice : ℚ) (today : ℤ) : ℕ → ℚ
  | 0 => basePrice
  | n + 1 => stepDay symHash basePrice (walkAux symHash basePrice today n) (today - (n : ℤ))

/-- `getDayOpenPrice(symHash, basePrice, dayNum)`; `today` stands for
the wall-clock `todayDayNum()` the source reads via `Date.now()`. -/
def getDayOpenPrice (symHash : ℕ) (basePrice : ℚ) (dayNum today : ℤ) : ℚ :=
  if dayNum ≥ today then basePrice
  else max (walkAux symHash basePrice today (today - dayNum).toNat) (basePrice * 0.1)

/- ── Intraday price at a specific second ───────────────────────────────── -/

/-- `+(x).toFixed(2)`: round to the nearest multiple of `0.01`, ties to
the larger candidate (ECMAScript `toFixed` picks the larger `n` on
ties), i.e. `⌊100 x + 1/2⌋ / 100`. -/
def toFixed2 (x : ℚ) : ℚ := (⌊x * 100 + 1 / 2⌋ : ℚ) / 100

/-- The transcendental host functions used by the engine.  `sinpi x`
models `Math.sin (x * Math.PI)`; `exp` models `Math.exp`. -/
structure HostMath where
  sinpi : ℚ → ℚ
  exp : ℚ → ℚ

/-- `getPriceAtSecond(symbol, basePrice, dayNum, marketSec)`:
four smooth-noise layers plus a half-sine intraday arc on top of the
day-open price, rounded to 2 decimals and floor-clamped at
`0.9 × dayOpen`. -/
def getPriceAtSecond (host : HostMath) (symbol : String) (basePrice : ℚ)
    (dayNum marketSec today : ℤ) : ℚ :=
  let symHash := symbolSeed symbol
  let dayOpen := getDayOpenPrice symHash basePrice dayNum today
  let t := dayNum * 30000 + max 0 marketSec
  let vol := dayOpen * 0.012
  let n1 := smoothNoise symHash 0x1001 t 3600 * vol * 1.00
  let n2 := smoothNoise symHash 0x2002 t 600 * vol * 0.55
  let n3 := smoothNoise symHash 0x3003 t 60 * vol * 0.30
  let n4 := smoothNoise symHash 0x4004 t 10 * vol * 0.15
  let dayFrac : ℚ := (marketSec : ℚ) / 23400
  let trend := vol * 0.6 * host.sinpi dayFrac
  max (toFixed2 (dayOpen + n1 + n2 + n3 + n4 + trend)) (dayOpen * 0.9)

/- ── Minute-bar OHLCV ──────────────────────────────────────────────────── -/

/-- A minute OHLCV bar.  The `open` field is spelled `open'` because
`open` is a Lean keyword. -/
structure Bar where
  open' : ℚ
  high : ℚ
  low : ℚ
  close : ℚ
  price : ℚ
  volume : ℤ

/-- `getMinuteBar(symbol, basePrice, dayNum, minuteIdx)`: samples the
price at offsets `[0, 12, 24, 36, 48, 59]` within the minute
(open = first, close = last, high/low = extrema) and derives the
U-shaped volume.  `Math.floor` is `Int.floor`. -/
def getMinuteBar (host : HostMath) (symbol : String) (basePrice : ℚ)
    (dayNum minuteIdx today : ℤ) : Bar :=
  let startSec := minuteIdx * 60
  let sample := fun (ds : ℤ) =>
    getPriceAtSecond host symbol basePrice dayNum (startSec + ds) today
  let s0 := sample 0
  let s1 := sample 12
  let s2 := sample 24
  let s3 := sample 36
  let s4 := sample 48
  let s5 := sample 59
  let symHash := symbolSeed symbol
  let baseVol := 80000 + rand2 ((symHash ^^^ 0xaabbcc : ℕ) : ℤ) dayNum * 120000
  let mNoise := 0.5 + rand2 ((symHash ^^^ 0x001122 : ℕ) : ℤ) (dayNum * 400 + minuteIdx) * 1.5
  let openBias := host.exp (-(minuteIdx : ℚ) / 40) * 2.5
  let closeBias := host.exp (-(389 - (minuteIdx : ℚ)) / 25) * 2.0
  { open' := s0
    high := max s0 (max s1 (max s2 (max s3 (max s4 s5))))
    low := min s0 (min s1 (min s2 (min s3 (min s4 s5))))
    close := s5
    price := s5
    volume := ⌊baseVol * mNoise * (1 + openBias + closeBias) / 390⌋ }

/-- `getDayVolume(symbol, basePrice, dayNum, currentMarketSec)`: the sum
of the per-minute volumes for minutes `0 … ⌊currentMarketSec/60⌋`. -/
def getDayVolume (host : HostMath) (symbol : String) (basePrice : ℚ)
    (dayNum currentMarketSec today : ℤ) : ℤ :=
  let currentMinute := Int.fdiv currentMarketSec 60
  ∑ m ∈ Finset.range (currentMinute + 1).toNat,
    (getMinuteBar host symbol basePrice dayNum (m : ℤ) today).volume

/- ── Trading-day calendar (priceEngine.js) ─────────────────────────────── -/

/-- `new Date(d * 86400000).getUTCDay()`: the day-of-week of epoch day
`d` (1970-01-01 was a Thursday, `getUTCDay() = 4`). -/
def dayOfWeek (d : ℤ) : ℤ := (d + 4) % 7

/-- The weekend test `dow !== 0 && dow !== 6` used throughout. -/
def isWeekday (d : ℤ) : Bool := dayOfWeek d != 0 && dayOfWeek d != 6

/-- The nearest weekday strictly below `d`.  The JS loop decrements one
day at a time and keeps only weekdays; Saturday/Sunday runs are at most
two days long, so the scan below `d` stops at `d-1`, `d-2` or `d-3`. -/
def prevWeekday (d : ℤ) : ℤ :=
  if isWeekday (d - 1) then d - 1
  else if isWeekday (d - 2) then d - 2
  else d - 3

/-- The days collected by `getLastTradingDays`, newest first (each one
is the nearest weekday strictly below the previous one). -/
def gltdGo : ℕ → ℤ → List ℤ
  | 0, _ => []
  | n + 1, d => prevWeekday d :: gltdGo n (prevWeekday d)

/-- `getLastTradingDays(count, upToDay)`: the `count` most recent
trading days strictly before `upToDay`, oldest first (the JS `unshift`
builds the list oldest-first). -/
def getLastTradingDays (count : ℕ) (upToDay : ℤ) : List ℤ :=
  (gltdGo count upToDay).reverse

/- ── StockChart.js: trading-day & label generation ─────────────────────── -/

/-- Epoch day number of `new Date(2024, 0, 17)` — the `refDate`
(Jan 17 2024, a Wednesday) used by `generateExtendedData`. -/
def refDateNum : ℤ := 19739

/-- The civil date `(year, month, day)` of an epoch day number — the
Gregorian calendar arithmetic behind the JS `Date` getters
(`getMonth() + 1`, `getDate()`). -/
def civilFromDays (z : ℤ) : ℤ × ℤ × ℤ :=
  let z' := z + 719468
  let era := Int.fdiv z' 146097
  let doe := z' - era * 146097
  let yoe := Int.fdiv (doe - Int.fdiv doe 1460 + Int.fdiv doe 36524 - Int.fdiv doe 146096) 365
  let doy := doe - (365 * yoe + Int.fdiv yoe 4 - Int.fdiv yoe 100)
  let mp := Int.fdiv (5 * doy + 2) 153
  let d := doy - Int.fdiv (153 * mp + 2) 5 + 1
  let m := mp + (if mp < 10 then 3 else -9)
  let y := yoe + era * 400 + (if m ≤ 2 then 1 else 0)
  (y, m, d)

/-- `String.padStart(2, '0')`. -/
def padStart2 (s : String) : String := if s.length < 2 then "0" ++ s else s

/-- `fmtMD(d)`: the label `"M/D"` (unpadded month/day). -/
def fmtMD (d : ℤ) : String :=
  let c := civilFromDays d
  toString c.2.1 ++ "/" ++ toString c.2.2

/-- `fmtMMDD(d)`: the label `"MM/DD"` (zero-padded month/day). -/
def fmtMMDD (d : ℤ) : String :=
  let c := civilFromDays d
  padStart2 (toString c.2.1) ++ "/" ++ padStart2 (toString c.2.2)

/-- `TIMES_27` of StockChart.js. -/
def TIMES_27 : List String :=
  ["9:30", "9:45", "10:00", "10:15", "10:30", "10:45",
   "11:00", "11:15", "11:30", "11:45", "12:00", "12:15",
   "12:30", "12:45", "1:00", "1:15", "1:30", "1:45",
   "2:00", "2:15", "2:30", "2:45", "3:00", "3:15",
   "3:30", "3:45", "4:00"]

/-- `TIMES_14` of StockChart.js. -/
def TIMES_14 : List String :=
  ["9:30", "10:00", "10:30", "11:00", "11:30", "12:00",
   "12:30", "1:00", "1:30", "2:00", "2:30", "3:00", "3:30", "4:00"]

/-- `TIMES_7` of StockChart.js. -/
def TIMES_7 : List String := ["9:30", "10:30", "11:30", "12:30", "1:30", "2:30", "3:30"]

/-- `TIMES_3` of StockChart.js. -/
def TIMES_3 : List String := ["10:30", "1:30", "3:30"]

/-- `pickIntradayTimes(pointsPerDay)`. -/
def pickIntradayTimes (pointsPerDay : ℤ) : List String :=
  if pointsPerDay ≤ 3 then TIMES_3
  else if pointsPerDay ≤ 7 then TIMES_7
  else if pointsPerDay ≤ 14 then TIMES_14
  else TIMES_27

/-- The nearest weekday at or below `d` (the downward skip of the
`getTradingDays` loop in StockChart.js, which tests the current day
before decrementing; weekend runs are at most two days long). -/
def nextWeekdayDown (d : ℤ) : ℤ :=
  if isWeekday d then d
  else if isWeekday (d - 1) then d - 1
  else d - 2

/-- The days collected by `getTradingDays`, newest first. -/
def gtdGo : ℕ → ℤ → List ℤ
  | 0, _ => []
  | n + 1, d => nextWeekdayDown d :: gtdGo n (nextWeekdayDown d - 1)

/-- `getTradingDays(endDate, count)` (StockChart.js): the `count` most
recent weekdays at or before `endDate`, oldest first. -/
def getTradingDays (endDay : ℤ) (count : ℕ) : List ℤ :=
  (gtdGo count endDay).reverse

/-- `Math.round x`: round half toward `+∞`. -/
def jsRound (x : ℚ) : ℤ := ⌊x + 1 / 2⌋

/- ── StockChart.js: multi-period data extension ────────────────────────── -/

/-- An input chart point for `generateExtendedData`: its time/date
label, its `price` field, and `rest` standing for every other field the
object carries (`open`, `high`, `low`, `close`, `volume`, …).  The
series fed to this function always carry `price`, so `d.price ?? d.close`
resolves to `price`. -/
structure RawPoint (ρ : Type) where
  label : String
  price : ℚ
  rest : ρ

/-- An output point of `generateExtendedData`: synthetic prior-period
points carry only a label and a price (`rest = none`); the current
period's points keep every original field (`rest = some _`). -/
structure ExtPoint (ρ : Type) where
  label : String
  price : ℚ
  rest : Option ρ

/-- The `{ data, totalPeriods, periodLen }` record returned by
`generateExtendedData`. -/
structure ExtResult (ρ : Type) where
  data : List (ExtPoint ρ)
  totalPeriods : ℕ
  periodLen : ℕ

/-- `Math.max(...l)` for a non-empty list. -/
def listMax (l : List ℚ) : ℚ := l.foldl max (l.headD 0)

/-- `Math.min(...l)` for a non-empty list. -/
def listMin (l : List ℚ) : ℚ := l.foldl min (l.headD 0)

/-- `Math.max(...templatePrices) - Math.min(...templatePrices) || 1`
(the `|| 1` replaces a zero range by 1). -/
def templateRange (prices : List ℚ) : ℚ :=
  let r := listMax prices - listMin prices
  if r = 0 then 1 else r

/-- The backward random walk building the per-period offsets:
after `p` iterations, returns `(cumOffset, offsets)` where `offsets`
is built front-first by `unshift` (so `offsets[0]` is the most negative,
oldest-period offset). -/
def mkOffsets (srand : ℤ → ℚ) (range : ℚ) : ℕ → ℚ × List ℚ
  | 0 => (0, [])
  | p + 1 =>
    let prev := mkOffsets srand range p
    let r := srand ((p : ℤ) * 137 + 42)
    let drift := range * (0.8 + r * 1.5)
    let cum := prev.1 - drift
    (cum, cum :: prev.2)

/-- `timeRange === '1d' ? 9 : timeRange === '5d' ? 3 : 2`. -/
def periodsToAddOf (timeRange : String) : ℕ :=
  if timeRange = "1d" then 9 else if timeRange = "5d" then 3 else 2

/-- The raw label list generated by `generateExtendedData` before
trimming/padding (the three `timeRange` branches). -/
def extLabels (timeRange : String) (periodLen totalPeriods : ℕ) : List String :=
  if timeRange = "1d" then
    let days := getTradingDays refDateNum totalPeriods
    let times := pickIntradayTimes (periodLen : ℤ)
    days.flatMap (fun day => times.map (fun t => fmtMD day ++ " " ++ t))
  else if timeRange = "5d" then
    let daysPerPeriod : ℕ := 5
    let ppd := jsRound ((periodLen : ℚ) / (daysPerPeriod : ℚ))
    let totalDays := daysPerPeriod * totalPeriods
    let days := getTradingDays refDateNum totalDays
    let times := pickIntradayTimes ppd
    days.flatMap (fun day => times.map (fun t => fmtMMDD day ++ " " ++ t))
  else
    let totalDays := periodLen * totalPeriods
    let days := getTradingDays refDateNum totalDays
    days.map (fun d => fmtMMDD d)

/-- Trim the labels to the exact point count:
`slice` from the left when too long, `unshift('')` when too short. -/
def fitLabels (labels : List String) (totalPoints : ℕ) : List String :=
  let l2 := if totalPoints < labels.length then labels.drop (labels.length - totalPoints) else labels
  List.replicate (totalPoints - l2.length) "" ++ l2

/-- The final (trimmed/padded) label list used by
`generateExtendedData` for an input of length `periodLen`. -/
def fittedLabels (timeRange : String) (periodLen : ℕ) : List String :=
  fitLabels (extLabels timeRange periodLen (1 + periodsToAddOf timeRange))
    (periodLen * (1 + periodsToAddOf timeRange))

/-- `generateExtendedData(rawData, timeRange)` (StockChart.js), with the
host's `seededRandom` supplied as `srand`.  Prior periods are emitted
oldest first, followed by the original (current) period whose points
keep all their fields, with the label replaced by the generated one
when that label is non-empty (`labels[labelIdx] || rawData[i][timeKey]`). -/
def generateExtendedData {ρ : Type} (srand : ℤ → ℚ) (raw : List (RawPoint ρ))
    (timeRange : String) : ExtResult ρ :=
  if raw.length < 2 then
    ⟨raw.map (fun r => ⟨r.label, r.price, some r.rest⟩), 1, raw.length⟩
  else
    let periodsToAdd := periodsToAddOf timeRange
    let periodLen := raw.length
    let labels := fittedLabels timeRange periodLen
    let template := raw.map (fun d => d.price)
    let range := templateRange template
    let offsets := (mkOffsets srand range periodsToAdd).2
    let prior := (List.range periodsToAdd).flatMap fun p =>
      (List.range periodLen).map fun i =>
        let base := template.getD i 0 + offsets.getD p 0
        let noise := base * (srand ((p : ℤ) * 10000 + (i : ℤ) * 13) - 0.5) * 0.006
        ({ label := labels.getD (p * periodLen + i) ""
           price := toFixed2 (base + noise)
           rest := none } : ExtPoint ρ)
    let current := raw.enum.map fun pr =>
      let lb := labels.getD (periodsToAdd * periodLen + pr.1) ""
      ({ label := if lb = "" then pr.2.label else lb
         price := pr.2.price
         rest := some pr.2.rest } : ExtPoint ρ)
    ⟨prior ++ current, 1 + periodsToAdd, periodLen⟩

/- ── Basic bounds on the primitives ────────────────────────────────────── -/

lemma xsr16_lt {x : ℕ} (h : x < 4294967296) : xsr16 x < 4294967296 := by
  have hle : x >>> 16 ≤ x := by
    rw [Nat.shiftRight_eq_div_pow]
    exact Nat.div_le_self x (2 ^ 16)
  have h16 : x >>> 16 < 4294967296 := lt_of_le_of_lt hle h
  have := Nat.xor_lt_two_pow (n := 32) (by simpa using h16) (by simpa using h)
  simpa using this

lemma rand2u_lt (a b : ℤ) : rand2u a b < 4294967296 := by
  unfold rand2u
  exact xsr16_lt (Nat.mod_lt _ (by norm_num))

lemma rand2_nonneg (a b : ℤ) : 0 ≤ rand2 a b := by
  unfold rand2
  positivity

lemma rand2_lt_one (a b : ℤ) : rand2 a b < 1 := by
  unfold rand2
  rw [div_lt_one (by norm_num)]
  exact_mod_cast rand2u_lt a b

/-- The interpolated noise value always lies in `[-1, 1]`. -/
lemma smoothNoise_bounds (symHash channel : ℕ) (t period : ℤ) (hp : 0 < period) :
    -1 ≤ smoothNoise symHash channel t period ∧ smoothNoise symHash channel t period ≤ 1 := by
  unfold smoothNoise
  have hfd : Int.fdiv t period = t / period := Int.fdiv_eq_ediv t hp.le
  have hmod : t - t / period * period = t % period := by
    rw [Int.emod_def]; ring
  have h0 : (0 : ℤ) ≤ t % period := Int.emod_nonneg t hp.ne'
  have h1 : t % period < period := Int.emod_lt_of_pos t hp
  set frac : ℚ := ((t : ℚ) - ((Int.fdiv t period : ℤ) : ℚ) * (period : ℚ)) / (period : ℚ) with hfrac
  have hfe : frac = ((t % period : ℤ) : ℚ) / (period : ℚ) := by
    rw [hfrac, hfd, ← hmod]; push_cast; ring
  have hpq : (0 : ℚ) < (period : ℚ) := by exact_mod_cast hp
  have hf0 : 0 ≤ frac := by
    rw [hfe]; positivity
  have hf1 : frac < 1 := by
    rw [hfe, div_lt_one hpq]; exact_mod_cast h1
  set u : ℚ := frac * frac * (3 - 2 * frac) with hu
  have hu0 : 0 ≤ u := by
    have : (0:ℚ) ≤ 3 - 2 * frac := by linarith
    positivity
  have hu1 : u ≤ 1 := by nlinarith [sq_nonneg (1 - frac)]
  have hv0l := rand2_nonneg ((symHash ^^^ channel : ℕ) : ℤ) (Int.fdiv t period)
  have hv0r := rand2_lt_one ((symHash ^^^ channel : ℕ) : ℤ) (Int.fdiv t period)
  have hv1l := rand2_nonneg ((symHash ^^^ channel : ℕ) : ℤ) (Int.fdiv t period + 1)
  have hv1r := rand2_lt_one ((symHash ^^^ channel : ℕ) : ℤ) (Int.fdiv t period + 1)
  constructor <;> nlinarith

/-- Rounding to 2 decimals moves a value by at most `1/200` (upward ties). -/
lemma toFixed2_le (x : ℚ) : toFixed2 x ≤ x + 1 / 200 := by
  unfold toFixed2
  have h := Int.floor_le (x * 100 + 1 / 2)
  rw [div_le_iff₀ (by norm_num : (0:ℚ) < 100)]
  linarith

lemma lt_toFixed2 (x : ℚ) : x - 1 / 200 < toFixed2 x := by
  unfold toFixed2
  have h := Int.lt_floor_add_one (x * 100 + 1 / 2)
  rw [lt_div_iff₀ (by norm_num : (0:ℚ) < 100)]
  linarith

/- ── Day-open walk bounds ──────────────────────────────────────────────── -/

/-- Each backward drift factor lies in `[0.985, 1.015)`. -/
lemma stepFactor_bounds (symHash : ℕ) (d : ℤ) :
    (0.985 : ℚ) ≤ stepFactor symHash d ∧ stepFactor symHash d < 1.015 := by
  unfold stepFactor
  have h0 := rand2_nonneg ((symHash ^^^ 0x44455455 : ℕ) : ℤ) d
  have h1 := rand2_lt_one ((symHash ^^^ 0x44455455 : ℕ) : ℤ) d
  constructor <;> [nlinarith; nlinarith]

lemma stepFactor_pos (symHash : ℕ) (d : ℤ) : 0 < stepFactor symHash d := by
  have := (stepFactor_bounds symHash d).1
  norm_num at this ⊢
  linarith

/-- With a positive incoming price the divided price stays positive, so the
`if (price <= 0)` reset branch of the walk is never taken. -/
lemma stepDay_of_pos (symHash : ℕ) (basePrice price : ℚ) (d : ℤ) (h : 0 < price) :
    stepDay symHash basePrice price d = price / stepFactor symHash d := by
  unfold stepDay
  rw [if_neg]
  push_neg
  exact div_pos h (stepFactor_pos symHash d)

lemma stepDay_pos (symHash : ℕ) (basePrice price : ℚ) (d : ℤ) (h : 0 < price) :
    0 < stepDay symHash basePrice price d := by
  rw [stepDay_of_pos symHash basePrice price d h]
  exact div_pos h (stepFactor_pos symHash d)

lemma walkAux_pos (symHash : ℕ) (basePrice : ℚ) (today : ℤ) (hb : 0 < basePrice) :
    ∀ n : ℕ, 0 < walkAux symHash basePrice today n := by
  intro n
  induction n with
  | zero => simpa [walkAux] using hb
  | succ n ih => exact stepDay_pos _ _ _ _ ih

lemma getDayOpenPrice_pos (symHash : ℕ) (basePrice : ℚ) (dayNum today : ℤ)
    (hb : 0 < basePrice) : 0 < getDayOpenPrice symHash basePrice dayNum today := by
  unfold getDayOpenPrice
  split
  · exact hb
  · exact lt_max_of_lt_right (by linarith)

lemma getDayOpenPrice_ge (symHash : ℕ) (basePrice : ℚ) (dayNum today : ℤ)
    (hb : 0 < basePrice) :
    0.1 * basePrice ≤ getDayOpenPrice symHash basePrice dayNum today := by
  unfold getDayOpenPrice
  split
  · nlinarith
  · exact le_max_of_le_right (by nlinarith)

/- ── Calendar lemmas ───────────────────────────────────────────────────── -/

lemma isWeekday_iff (d : ℤ) : isWeekday d = true ↔ (d + 4) % 7 ≠ 0 ∧ (d + 4) % 7 ≠ 6 := by
  simp [isWeekday, dayOfWeek]

/-- Among any three consecutive days at least one is a weekday, so the
three-case `prevWeekday` captures the JS decrement-and-skip loop. -/
lemma isWeekday_prevWeekday (d : ℤ) : isWeekday (prevWeekday d) = true := by
  unfold prevWeekday
  split_ifs with h1 h2
  · exact h1
  · exact h2
  · rw [isWeekday_iff]
    rw [show ¬isWeekday (d - 1) = true ↔ ¬((d - 1 + 4) % 7 ≠ 0 ∧ (d - 1 + 4) % 7 ≠ 6) from
      not_congr (isWeekday_iff (d - 1))] at h1
    rw [show ¬isWeekday (d - 2) = true ↔ ¬((d - 2 + 4) % 7 ≠ 0 ∧ (d - 2 + 4) % 7 ≠ 6) from
      not_congr (isWeekday_iff (d - 2))] at h2
    push_neg at h1 h2
    omega

lemma prevWeekday_lt (d : ℤ) : prevWeekday d < d := by
  unfold prevWeekday
  split_ifs <;> omega

lemma prevWeekday_ge (d : ℤ) : d - 3 ≤ prevWeekday d := by
  unfold prevWeekday
  split_ifs <;> omega

lemma gltdGo_length (n : ℕ) (d : ℤ) : (gltdGo n d).length = n := by
  induction n generalizing d with
  | zero => rfl
  | succ n ih => simp [gltdGo, ih]

lemma gltdGo_mem (n : ℕ) (d : ℤ) :
    ∀ x ∈ gltdGo n d, isWeekday x = true ∧ x < d := by
  induction n generalizing d with
  | zero => simp [gltdGo]
  | succ n ih =>
    intro x hx
    simp only [gltdGo, List.mem_cons] at hx
    rcases hx with rfl | hx
    · exact ⟨isWeekday_prevWeekday d, prevWeekday_lt d⟩
    · obtain ⟨hw, hlt⟩ := ih (prevWeekday d) x hx
      exact ⟨hw, hlt.trans (prevWeekday_lt d)⟩

lemma gltdGo_pairwise (n : ℕ) (d : ℤ) :
    List.Pairwise (fun a b => b < a) (gltdGo n d) := by
  induction n generalizing d with
  | zero => simp [gltdGo]
  | succ n ih =>
    simp only [gltdGo, List.pairwise_cons]
    exact ⟨fun x hx => (gltdGo_mem n (prevWeekday d) x hx).2, ih (prevWeekday d)⟩

lemma gltdGo_head (n : ℕ) (d : ℤ) :
    (gltdGo (n + 1) d).head? = some (prevWeekday d) := rfl

/-- On a Monday the three-day scan lands exactly on the preceding
Friday. -/
lemma prevWeekday_monday (d : ℤ) (h : dayOfWeek d = 1) : prevWeekday d = d - 3 := by
  unfold dayOfWeek at h
  unfold prevWeekday
  have h1 : ¬isWeekday (d - 1) = true := by rw [isWeekday_iff]; push_neg; intro; omega
  have h2 : ¬isWeekday (d - 2) = true := by rw [isWeekday_iff]; push_neg; intro; omega
  rw [if_neg h1, if_neg h2]

/- ── Concrete host instantiation used by witnesses/counterexamples ─────── -/

/-- A concrete host-function bundle.  The only transcendental values the
concrete scenarios below depend on are `Math.sin 0` and arguments whose
results are multiplied by `0`, and IEEE 754 guarantees
`Math.sin 0 = 0`, so this bundle agrees with the real host at every
point those scenarios evaluate. -/
def hostZero : HostMath := ⟨fun _ => 0, fun _ => 0⟩

/- ── C1: floor invariant ───────────────────────────────────────────────── -/

/-- C1: for every symbol, positive base price, day and market second
(and every wall-clock day and host sine/exp), the emitted price is at
least `0.9` times the day-open price for the same symbol, base price
and day. -/
theorem c1_price_floor (host : HostMath) (symbol : String) (basePrice : ℚ)
    (dayNum marketSec today : ℤ) (hb : 0 < basePrice) :
    0.9 * getDayOpenPrice (symbolSeed symbol) basePrice dayNum today ≤
      getPriceAtSecond host symbol basePrice dayNum marketSec today := by
  simp only [getPriceAtSecond]
  exact le_trans (le_of_eq (by ring)) (le_max_right _ _)

/-- Witness for C1 at symbol "AAA", base 100, the pinned simulation day
20505 (Feb 21 2026), second 0. -/
theorem c1_price_floor_witness :
    (0 : ℚ) < 100 ∧
      0.9 * getDayOpenPrice (symbolSeed "AAA") 100 20505 20505 ≤
        getPriceAtSecond hostZero "AAA" 100 20505 0 20505 :=
  ⟨by norm_num, c1_price_floor hostZero "AAA" 100 20505 0 20505 (by norm_num)⟩

/- ── C3: today pass-through ────────────────────────────────────────────── -/

/-- C3: for every seed and positive base price, when the requested day
is at or after today's day number, `getDayOpenPrice` returns the base
price unchanged. -/
theorem c3_today_passthrough (symHash : ℕ) (basePrice : ℚ) (dayNum today : ℤ)
    (hb : 0 < basePrice) (h : today ≤ dayNum) :
    getDayOpenPrice symHash basePrice dayNum today = basePrice := by
  unfold getDayOpenPrice
  exact if_pos h

/-- Witness for C3 at seed 0, base 42.5, day = today = 20505. -/
theorem c3_today_passthrough_witness :
    (0 : ℚ) < 42.5 ∧ (20505 : ℤ) ≤ 20505 ∧
      getDayOpenPrice 0 42.5 20505 20505 = 42.5 :=
  ⟨by norm_num, le_refl _, c3_today_passthrough 0 42.5 20505 20505 (by norm_num) (le_refl _)⟩

/- ── C4: trading-day calendar ──────────────────────────────────────────── -/

/-- C4: `getLastTradingDays count upToDay` returns exactly `count` days,
none of which is a Saturday or Sunday, all strictly before `upToDay`,
in strictly increasing (oldest-first) order; and when `upToDay` is a
Monday the most recent entry is the preceding Friday (`upToDay - 3`). -/
theorem c4_trading_days (count : ℕ) (upToDay : ℤ) :
    (getLastTradingDays count upToDay).length = count ∧
    (∀ d ∈ getLastTradingDays count upToDay, dayOfWeek d ≠ 0 ∧ dayOfWeek d ≠ 6) ∧
    (∀ d ∈ getLastTradingDays count upToDay, d < upToDay) ∧
    List.Pairwise (· < ·) (getLastTradingDays count upToDay) ∧
    (dayOfWeek upToDay = 1 → 0 < count →
      (getLastTradingDays count upToDay).getLast? = some (upToDay - 3)) := by
  refine ⟨?_, ?_, ?_, ?_, ?_⟩
  · rw [getLastTradingDays, List.length_reverse, gltdGo_length]
  · intro d hd
    rw [getLastTradingDays, List.mem_reverse] at hd
    have := (isWeekday_iff d).mp (gltdGo_mem count upToDay d hd).1
    exact ⟨by simpa [dayOfWeek] using this.1, by simpa [dayOfWeek] using this.2⟩
  · intro d hd
    rw [getLastTradingDays, List.mem_reverse] at hd
    exact (gltdGo_mem count upToDay d hd).2
  · rw [getLastTradingDays]
    exact List.pairwise_reverse.mpr (gltdGo_pairwise count upToDay)
  · intro hmon hpos
    obtain ⟨n, rfl⟩ : ∃ n, count = n + 1 := ⟨count - 1, by omega⟩
    rw [getLastTradingDays, List.getLast?_reverse, gltdGo_head,
      prevWeekday_monday upToDay hmon]

/-- Witness for C4: three trading days before epoch day 11 (a Monday)
are `[6, 7, 8]`, ending on Friday = 8 = 11 - 3. -/
theorem c4_trading_days_witness :
    dayOfWeek 11 = 1 ∧ 0 < 3 ∧
      (getLastTradingDays 3 11).getLast? = some 8 := by
  refine ⟨by decide, by norm_num, ?_⟩
  have h := (c4_trading_days 3 11).2.2.2.2 (by decide) (by norm_num)
  simpa using h

/- ── C5: bar consistency ───────────────────────────────────────────────── -/

/-- C5: every minute bar satisfies `low ≤ open ≤ high` and
`low ≤ close ≤ high` (open and close are among the six samples whose
extrema define high and low). -/
theorem c5_bar_consistency (host : HostMath) (symbol : String) (basePrice : ℚ)
    (dayNum minuteIdx today : ℤ) (hb : 0 < basePrice) :
    (getMinuteBar host symbol basePrice dayNum minuteIdx today).low ≤
        (getMinuteBar host symbol basePrice dayNum minuteIdx today).open' ∧
    (getMinuteBar host symbol basePrice dayNum minuteIdx today).open' ≤
        (getMinuteBar host symbol basePrice dayNum minuteIdx today).high ∧
    (getMinuteBar host symbol basePrice dayNum minuteIdx today).low ≤
        (getMinuteBar host symbol basePrice dayNum minuteIdx today).close ∧
    (getMinuteBar host symbol basePrice dayNum minuteIdx today).close ≤
        (getMinuteBar host symbol basePrice dayNum minuteIdx today).high := by
  simp only [getMinuteBar]
  refine ⟨min_le_left _ _, le_max_left _ _, ?_, ?_⟩
  · exact le_trans (min_le_right _ _) (le_trans (min_le_right _ _)
      (le_trans (min_le_right _ _) (le_trans (min_le_right _ _) (min_le_right _ _))))
  · exact le_trans (le_max_right _ _) (le_trans (le_max_right _ _)
      (le_trans (le_max_right _ _) (le_trans (le_max_right _ _) (le_max_right _ _))))

/-- Witness for C5 at symbol "AAA", base 100, day 20505, minute 0. -/
theorem c5_bar_consistency_witness :
    (0 : ℚ) < 100 ∧
    (getMinuteBar hostZero "AAA" 100 20505 0 20505).low ≤
        (getMinuteBar hostZero "AAA" 100 20505 0 20505).open' ∧
    (getMinuteBar hostZero "AAA" 100 20505 0 20505).open' ≤
        (getMinuteBar hostZero "AAA" 100 20505 0 20505).high ∧
    (getMinuteBar hostZero "AAA" 100 20505 0 20505).low ≤
        (getMinuteBar hostZero "AAA" 100 20505 0 20505).close ∧
    (getMinuteBar hostZero "AAA" 100 20505 0 20505).close ≤
        (getMinuteBar hostZero "AAA" 100 20505 0 20505).high :=
  ⟨by norm_num, c5_bar_consistency hostZero "AAA" 100 20505 0 20505 (by norm_num)⟩

/- ── C6: volume positivity and cumulative monotonicity ─────────────────── -/

/-- The generated per-minute volume is always a positive integer, for
every host exponential with non-negative values (as `Math.exp` is). -/
lemma getMinuteBar_volume_pos (host : HostMath) (symbol : String) (basePrice : ℚ)
    (dayNum minuteIdx today : ℤ) (hexp : ∀ x : ℚ, 0 ≤ host.exp x) :
    0 < (getMinuteBar host symbol basePrice dayNum minuteIdx today).volume := by
  simp only [getMinuteBar]
  have h1 : (1 : ℤ) ≤ ⌊(80000 + rand2 ((symbolSeed symbol ^^^ 0xaabbcc : ℕ) : ℤ) dayNum * 120000) *
      (0.5 + rand2 ((symbolSeed symbol ^^^ 0x001122 : ℕ) : ℤ) (dayNum * 400 + minuteIdx) * 1.5) *
      (1 + host.exp (-(minuteIdx : ℚ) / 40) * 2.5 + host.exp (-(389 - (minuteIdx : ℚ)) / 25) * 2.0) / 390⌋ := by
    rw [Int.le_floor]
    have hb1 := rand2_nonneg ((symbolSeed symbol ^^^ 0xaabbcc : ℕ) : ℤ) dayNum
    have hm1 := rand2_nonneg ((symbolSeed symbol ^^^ 0x001122 : ℕ) : ℤ) (dayNum * 400 + minuteIdx)
    have he1 := hexp (-(minuteIdx : ℚ) / 40)
    have he2 := hexp (-(389 - (minuteIdx : ℚ)) / 25)
    rw [le_div_iff₀ (by norm_num : (0:ℚ) < 390)]
    set a := rand2 ((symbolSeed symbol ^^^ 0xaabbcc : ℕ) : ℤ) dayNum
    set b := rand2 ((symbolSeed symbol ^^^ 0x001122 : ℕ) : ℤ) (dayNum * 400 + minuteIdx)
    set e1 := host.exp (-(minuteIdx : ℚ) / 40)
    set e2 := host.exp (-(389 - (minuteIdx : ℚ)) / 25)
    have hA : (80000 : ℚ) ≤ 80000 + a * 120000 := by nlinarith
    have hB : (0.5 : ℚ) ≤ 0.5 + b * 1.5 := by nlinarith
    have hC : (1 : ℚ) ≤ 1 + e1 * 2.5 + e2 * 2.0 := by nlinarith
    have hAB : (40000 : ℚ) ≤ (80000 + a * 120000) * (0.5 + b * 1.5) := by
      calc (40000 : ℚ) = 80000 * 0.5 := by norm_num
      _ ≤ (80000 + a * 120000) * (0.5 + b * 1.5) :=
        mul_le_mul hA hB (by norm_num) (by linarith)
    calc ((1 : ℤ) : ℚ) * 390 = 40000 * 1 - 39610 := by norm_num
    _ ≤ (80000 + a * 120000) * (0.5 + b * 1.5) * (1 + e1 * 2.5 + e2 * 2.0) - 39610 := by
      have := mul_le_mul hAB hC (by norm_num) (by linarith)
      linarith
    _ ≤ (80000 + a * 120000) * (0.5 + b * 1.5) * (1 + e1 * 2.5 + e2 * 2.0) := by linarith
  omega

/-- C6: every generated volume is a positive integer, and the cumulative
day volume is monotonically non-decreasing in the market second. -/
theorem c6_volume (host : HostMath) (symbol : String) (basePrice : ℚ)
    (dayNum today : ℤ) (hb : 0 < basePrice) (hexp : ∀ x : ℚ, 0 ≤ host.exp x) :
    (∀ minuteIdx : ℤ, 0 < (getMinuteBar host symbol basePrice dayNum minuteIdx today).volume) ∧
    (∀ s1 s2 : ℤ, s1 ≤ s2 →
      getDayVolume host symbol basePrice dayNum s1 today ≤
        getDayVolume host symbol basePrice dayNum s2 today) := by
  refine ⟨fun m => getMinuteBar_volume_pos host symbol basePrice dayNum m today hexp, ?_⟩
  intro s1 s2 hs
  unfold getDayVolume
  have hdiv : Int.fdiv s1 60 ≤ Int.fdiv s2 60 := by
    rw [Int.fdiv_eq_ediv s1 (by norm_num), Int.fdiv_eq_ediv s2 (by norm_num)]
    exact Int.ediv_le_ediv (by norm_num) hs
  refine Finset.sum_le_sum_of_subset_of_nonneg
    (Finset.range_subset.mpr (Int.toNat_le_toNat (by omega))) ?_
  intro m _ _
  exact (getMinuteBar_volume_pos host symbol basePrice dayNum (m : ℤ) today hexp).le

/-- Witness for C6 at symbol "AAA", base 100, day 20505, checking the
volume of minute 0 and cumulative volumes at seconds 0 ≤ 60. -/
theorem c6_volume_witness :
    (0 : ℚ) < 100 ∧ (∀ x : ℚ, 0 ≤ hostZero.exp x) ∧
    0 < (getMinuteBar hostZero "AAA" 100 20505 0 20505).volume ∧
    getDayVolume hostZero "AAA" 100 20505 0 20505 ≤ getDayVolume hostZero "AAA" 100 20505 60 20505 := by
  have h := c6_volume hostZero "AAA" 100 20505 20505 (by norm_num) (fun x => le_refl 0)
  exact ⟨by norm_num, fun x => le_refl 0, h.1 0, h.2 0 60 (by norm_num)⟩

/- ── C10: backward-walk safety ─────────────────────────────────────────── -/

/-- C10 (amended): every intermediate price of the backward walk is
strictly positive, each step's drift factor lies in `[0.985, 1.015)`
(the factor can equal `0.985` exactly when the underlying hash yields
`0`), the reset-to-`0.3 × basePrice` branch is never taken, and the
returned day-open price is at least `0.1 × basePrice` and strictly
positive. -/
theorem c10_walk_safety (symHash : ℕ) (basePrice : ℚ) (dayNum today : ℤ)
    (hb : 0 < basePrice) :
    (∀ n : ℕ, 0 < walkAux symHash basePrice today n) ∧
    (∀ d : ℤ, 0.985 ≤ stepFactor symHash d ∧ stepFactor symHash d < 1.015) ∧
    (∀ (price : ℚ) (d : ℤ), 0 < price →
      stepDay symHash basePrice price d = price / stepFactor symHash d) ∧
    0.1 * basePrice ≤ getDayOpenPrice symHash basePrice dayNum today ∧
    0 < getDayOpenPrice symHash basePrice dayNum today :=
  ⟨walkAux_pos symHash basePrice today hb,
   stepFactor_bounds symHash,
   fun price d hp => stepDay_of_pos symHash basePrice price d hp,
   getDayOpenPrice_ge symHash basePrice dayNum today hb,
   getDayOpenPrice_pos symHash basePrice dayNum today hb⟩

/-- Witness for C10 (amended) at seed 0, base 1, walking one day back
from 20506 to 20505. -/
theorem c10_walk_safety_witness :
    (0 : ℚ) < 1 ∧ 0 < walkAux 0 1 20506 1 ∧
      0.1 * (1 : ℚ) ≤ getDayOpenPrice 0 1 20505 20506 ∧
      0 < getDayOpenPrice 0 1 20505 20506 := by
  have h := c10_walk_safety 0 1 20505 20506 (by norm_num)
  exact ⟨by norm_num, h.1 1, h.2.2.2.1, h.2.2.2.2⟩

/-- Counterexample to C10 as stated: the claim's drift-factor interval
`(0.985, 1.015]` is open at the bottom, but for seed `0` and day
`3167122838` the hash is exactly `0`, so the factor equals `0.985`. -/
theorem c10_factor_boundary :
    stepFactor 0 3167122838 = 0.985 ∧ ¬(0.985 < stepFactor 0 3167122838) := by
  have h : stepFactor 0 3167122838 = 197 / 200 := by
    norm_num [stepFactor, rand2,
      show rand2u ((0 ^^^ 0x44455455 : ℕ) : ℤ) 3167122838 = 0 from by decide,
      show rand2u ((1145394261 : ℕ) : ℤ) 3167122838 = 0 from by decide,
      show rand2u (1145394261 : ℤ) 3167122838 = 0 from by decide]
  rw [h]
  norm_num

/- ── C2: dependence on the wall clock ──────────────────────────────────── -/

/-- C2: the code is not a function of `(symbol, basePrice, day, second)`
alone — evaluating `getPriceAtSecond` for the pinned simulation day
20505 (Feb 21 2026) at second 0 yields different prices when the
wall-clock day (read via `Date.now()`) is Feb 22 vs Feb 23 2026:
98.28 vs 97.32. -/
theorem c2_wall_clock_dependence :
    getPriceAtSecond hostZero "AAA" 100 20505 0 20506 ≠
      getPriceAtSecond hostZero "AAA" 100 20505 0 20507 := by
  have h1 : getPriceAtSecond hostZero "AAA" 100 20505 0 20506 = 2457 / 25 := by
    norm_num [getPriceAtSecond, getDayOpenPrice, walkAux, stepDay, stepFactor,
      smoothNoise, rand2, toFixed2, hostZero,
      show symbolSeed "AAA" = 3061902210 from by decide,
      show Int.fdiv 615150000 3600 = 170875 from by decide,
      show Int.fdiv 615150000 600 = 1025250 from by decide,
      show Int.fdiv 615150000 60 = 10252500 from by decide,
      show Int.fdiv 615150000 10 = 61515000 from by decide,
      show rand2u ((3061902210 ^^^ 0x44455455 : ℕ) : ℤ) 20506 = 3613581677 from by decide,
      show rand2u ((3061902210 ^^^ 0x1001 : ℕ) : ℤ) 170875 = 1519709466 from by decide,
      show rand2u ((3061902210 ^^^ 0x2002 : ℕ) : ℤ) 1025250 = 240182726 from by decide,
      show rand2u ((3061902210 ^^^ 0x3003 : ℕ) : ℤ) 10252500 = 2670345758 from by decide,
      show rand2u ((3061902210 ^^^ 0x4004 : ℕ) : ℤ) 61515000 = 3768880210 from by decide]
  have h2 : getPriceAtSecond hostZero "AAA" 100 20505 0 20507 = 2433 / 25 := by
    norm_num [getPriceAtSecond, getDayOpenPrice, walkAux, stepDay, stepFactor,
      smoothNoise, rand2, toFixed2, hostZero,
      show symbolSeed "AAA" = 3061902210 from by decide,
      show Int.fdiv 615150000 3600 = 170875 from by decide,
      show Int.fdiv 615150000 600 = 1025250 from by decide,
      show Int.fdiv 615150000 60 = 10252500 from by decide,
      show Int.fdiv 615150000 10 = 61515000 from by decide,
      show rand2u ((3061902210 ^^^ 0x44455455 : ℕ) : ℤ) 20506 = 3613581677 from by decide,
      show rand2u ((3061902210 ^^^ 0x44455455 : ℕ) : ℤ) 20507 = 3565175360 from by decide,
      show rand2u ((3061902210 ^^^ 0x1001 : ℕ) : ℤ) 170875 = 1519709466 from by decide,
      show rand2u ((3061902210 ^^^ 0x2002 : ℕ) : ℤ) 1025250 = 240182726 from by decide,
      show rand2u ((3061902210 ^^^ 0x3003 : ℕ) : ℤ) 10252500 = 2670345758 from by decide,
      show rand2u ((3061902210 ^^^ 0x4004 : ℕ) : ℤ) 61515000 = 3768880210 from by decide]
  rw [h1, h2]
  norm_num

/- ── C7: price at the open of today ────────────────────────────────────── -/

/-- Counterexample to C7 as stated: for symbol "AAA", base 100.00,
day = today (the pinned simulation day 20505) and second 0, the price
is 99.29, not 100.00 — the four noise layers do apply at second 0.
(`Math.sin 0 = 0` exactly in IEEE 754, so `hostZero` agrees with the
real host at the only transcendental input this scenario evaluates.) -/
theorem c7_open_not_base :
    getPriceAtSecond hostZero "AAA" 100 20505 0 20505 = 9929 / 100 ∧
      (9929 / 100 : ℚ) ≠ 100 := by
  constructor
  · norm_num [getPriceAtSecond, getDayOpenPrice, smoothNoise, rand2, toFixed2, hostZero,
      show symbolSeed "AAA" = 3061902210 from by decide,
      show Int.fdiv 615150000 3600 = 170875 from by decide,
      show Int.fdiv 615150000 600 = 1025250 from by decide,
      show Int.fdiv 615150000 60 = 10252500 from by decide,
      show Int.fdiv 615150000 10 = 61515000 from by decide,
      show rand2u ((3061902210 ^^^ 0x1001 : ℕ) : ℤ) 170875 = 1519709466 from by decide,
      show rand2u ((3061902210 ^^^ 0x2002 : ℕ) : ℤ) 1025250 = 240182726 from by decide,
      show rand2u ((3061902210 ^^^ 0x3003 : ℕ) : ℤ) 10252500 = 2670345758 from by decide,
      show rand2u ((3061902210 ^^^ 0x4004 : ℕ) : ℤ) 61515000 = 3768880210 from by decide]
  · norm_num

/-- C7 (amended): for symbol "AAA", base 100.00, day = today and
second 0 the price equals the rounded sum of 100 and the four bounded
noise layers — within `2.405` of 100.00 (`2.4` from the layers,
`0.005` from rounding) — but not 100.00 exactly in general. -/
theorem c7_open_near_base (host : HostMath) (today : ℤ) (hsin : host.sinpi 0 = 0) :
    |getPriceAtSecond host "AAA" 100 today 0 today - 100| ≤ 2.405 := by
  have h1 := smoothNoise_bounds (symbolSeed "AAA") 0x1001 (today * 30000 + max 0 0) 3600 (by norm_num)
  have h2 := smoothNoise_bounds (symbolSeed "AAA") 0x2002 (today * 30000 + max 0 0) 600 (by norm_num)
  have h3 := smoothNoise_bounds (symbolSeed "AAA") 0x3003 (today * 30000 + max 0 0) 60 (by norm_num)
  have h4 := smoothNoise_bounds (symbolSeed "AAA") 0x4004 (today * 30000 + max 0 0) 10 (by norm_num)
  simp only [getPriceAtSecond]
  rw [show getDayOpenPrice (symbolSeed "AAA") 100 today today = 100 from if_pos (le_refl today)]
  rw [show (((0 : ℤ) : ℚ) / 23400) = (0 : ℚ) from by norm_num, hsin]
  set m1 := smoothNoise (symbolSeed "AAA") 0x1001 (today * 30000 + max 0 0) 3600 with hm1
  set m2 := smoothNoise (symbolSeed "AAA") 0x2002 (today * 30000 + max 0 0) 600 with hm2
  set m3 := smoothNoise (symbolSeed "AAA") 0x3003 (today * 30000 + max 0 0) 60 with hm3
  set m4 := smoothNoise (symbolSeed "AAA") 0x4004 (today * 30000 + max 0 0) 10 with hm4
  set S := 100 + m1 * (100 * 0.012) * 1.00 + m2 * (100 * 0.012) * 0.55 +
    m3 * (100 * 0.012) * 0.30 + m4 * (100 * 0.012) * 0.15 + 100 * 0.012 * 0.6 * 0 with hS
  have hSl : (97.6 : ℚ) ≤ S := by rw [hS]; nlinarith [h1.1, h2.1, h3.1, h4.1]
  have hSu : S ≤ (102.4 : ℚ) := by rw [hS]; nlinarith [h1.2, h2.2, h3.2, h4.2]
  have hT1 := toFixed2_le S
  have hT2 := lt_toFixed2 S
  have hmax : max (toFixed2 S) (100 * 0.9) = toFixed2 S := by
    apply max_eq_left
    have : (90 : ℚ) ≤ toFixed2 S := by linarith
    linarith [this]
  rw [hmax, abs_le]
  constructor <;> linarith

/-- Witness for the amended C7 at the pinned simulation day. -/
theorem c7_open_near_base_witness :
    hostZero.sinpi 0 = 0 ∧
      |getPriceAtSecond hostZero "AAA" 100 20505 0 20505 - 100| ≤ 2.405 :=
  ⟨rfl, c7_open_near_base hostZero 20505 rfl⟩

/- ── C8: 2-decimal rounding ────────────────────────────────────────────── -/

/-- C8 failing input: for base price `0.004` (= 1/250) at
day = today = 20505 and second 0, the rounded sum is `0.00`, so the
`0.9 × dayOpen` clamp wins and the emitted price is `0.0036` —
`price × 100 = 0.36` is not an integer, contradicting the documented
"price rounded to 2 decimal places". -/
theorem c8_clamp_not_rounded :
    getPriceAtSecond hostZero "AAA" (1 / 250) 20505 0 20505 = 9 / 2500 ∧
      ¬∃ k : ℤ, getPriceAtSecond hostZero "AAA" (1 / 250) 20505 0 20505 * 100 = (k : ℚ) := by
  have h : getPriceAtSecond hostZero "AAA" (1 / 250) 20505 0 20505 = 9 / 2500 := by
    norm_num [getPriceAtSecond, getDayOpenPrice, smoothNoise, rand2, toFixed2, hostZero,
      show symbolSeed "AAA" = 3061902210 from by decide,
      show Int.fdiv 615150000 3600 = 170875 from by decide,
      show Int.fdiv 615150000 600 = 1025250 from by decide,
      show Int.fdiv 615150000 60 = 10252500 from by decide,
      show Int.fdiv 615150000 10 = 61515000 from by decide,
      show rand2u ((3061902210 ^^^ 0x1001 : ℕ) : ℤ) 170875 = 1519709466 from by decide,
      show rand2u ((3061902210 ^^^ 0x2002 : ℕ) : ℤ) 1025250 = 240182726 from by decide,
      show rand2u ((3061902210 ^^^ 0x3003 : ℕ) : ℤ) 10252500 = 2670345758 from by decide,
      show rand2u ((3061902210 ^^^ 0x4004 : ℕ) : ℤ) 61515000 = 3768880210 from by decide]
  refine ⟨h, ?_⟩
  rintro ⟨k, hk⟩
  rw [h] at hk
  have hq : (25 : ℚ) * (k : ℚ) = 9 := by linarith
  have hz : (25 * k : ℤ) = 9 := by exact_mod_cast hq
  omega

/- ── List helper lemmas for the extension proofs ───────────────────────── -/

lemma getD_map {α β : Type} (f : α → β) (l : List α) (i : ℕ) (hi : i < l.length)
    (d : β) (dα : α) : (l.map f).getD i d = f (l.getD i dα) := by
  rw [List.getD_eq_getElem?_getD, List.getElem?_map, List.getElem?_eq_getElem hi,
    List.getD_eq_getElem?_getD, List.getElem?_eq_getElem hi]
  rfl

lemma getD_enum_map {α β : Type} (l : List α) (f : ℕ × α → β) (i : ℕ)
    (hi : i < l.length) (d : β) (dα : α) :
    (l.enum.map f).getD i d = f (i, l.getD i dα) := by
  rw [List.getD_eq_getElem?_getD, List.getElem?_map, List.getElem?_enum,
    List.getElem?_eq_getElem hi, List.getD_eq_getElem?_getD, List.getElem?_eq_getElem hi]
  rfl

lemma length_flatMap_const {α β : Type} (l : List α) (f : α → List β) (k : ℕ)
    (h : ∀ a ∈ l, (f a).length = k) : (l.flatMap f).length = l.length * k := by
  induction l with
  | nil => simp
  | cons a l ih =>
    rw [List.flatMap_cons, List.length_append, h a (List.mem_cons_self a l),
      ih (fun b hb => h b (List.mem_cons_of_mem a hb)), List.length_cons]
    ring

lemma length_range_flatMap_map {β : Type} (P L : ℕ) (g : ℕ → ℕ → β) :
    ((List.range P).flatMap fun p => (List.range L).map (g p)).length = P * L := by
  rw [length_flatMap_const _ _ L (fun a _ => by simp), List.length_range]

lemma getD_range_flatMap_map {β : Type} {P L p i : ℕ} (g : ℕ → ℕ → β) (dflt : β)
    (hp : p < P) (hi : i < L) :
    ((List.range P).flatMap fun q => (List.range L).map (g q)).getD (p * L + i) dflt
      = g p i := by
  induction P with
  | zero => omega
  | succ P ih =>
    rw [List.range_succ, List.flatMap_append]
    rcases Nat.lt_succ_iff_lt_or_eq.mp hp with h | rfl
    · have hidx : p * L + i < (((List.range P).flatMap fun q => (List.range L).map (g q))).length := by
        rw [length_range_flatMap_map]
        calc p * L + i < p * L + L := by omega
        _ = (p + 1) * L := by ring
        _ ≤ P * L := Nat.mul_le_mul_right L h
      rw [List.getD_eq_getElem?_getD, List.getElem?_append_left hidx,
        ← List.getD_eq_getElem?_getD, ih h]
    · have hlen : (((List.range p).flatMap fun q => (List.range L).map (g q))).length = p * L :=
        length_range_flatMap_map p L g
      rw [List.getD_eq_getElem?_getD, List.getElem?_append_right (by omega), hlen]
      simp only [List.flatMap_cons, List.flatMap_nil, List.append_nil]
      rw [show p * L + i - p * L = i from by omega, List.getElem?_map,
        List.getElem?_range hi]
      rfl

/- ── Offset-walk and range lemmas ──────────────────────────────────────── -/

lemma mkOffsets_snd_length (srand : ℤ → ℚ) (range : ℚ) (n : ℕ) :
    ((mkOffsets srand range n).2).length = n := by
  induction n with
  | zero => rfl
  | succ n ih => simp [mkOffsets, ih]

lemma mkOffsets_fst_lt (srand : ℤ → ℚ) (range : ℚ)
    (hr : ∀ x : ℤ, 0 ≤ srand x) (hrange : 0 < range) (n : ℕ) :
    (mkOffsets srand range (n + 1)).1 < (mkOffsets srand range n).1 := by
  have h := hr ((n : ℤ) * 137 + 42)
  simp only [mkOffsets]
  nlinarith

lemma mkOffsets_fst_nonpos (srand : ℤ → ℚ) (range : ℚ)
    (hr : ∀ x : ℤ, 0 ≤ srand x) (hrange : 0 < range) (n : ℕ) :
    (mkOffsets srand range n).1 ≤ 0 := by
  induction n with
  | zero => simp [mkOffsets]
  | succ n ih => exact le_trans (mkOffsets_fst_lt srand range hr hrange n).le ih

lemma mkOffsets_mem (srand : ℤ → ℚ) (range : ℚ)
    (hr : ∀ x : ℤ, 0 ≤ srand x) (hrange : 0 < range) (n : ℕ) :
    ∀ q ∈ (mkOffsets srand range n).2, (mkOffsets srand range n).1 ≤ q ∧ q < 0 := by
  induction n with
  | zero => simp [mkOffsets]
  | succ n ih =>
    intro q hq
    have hlt := mkOffsets_fst_lt srand range hr hrange n
    have hnp := mkOffsets_fst_nonpos srand range hr hrange n
    simp only [mkOffsets, List.mem_cons] at hq
    rcases hq with rfl | hq
    · exact ⟨le_refl _, by simp only [mkOffsets] at hlt ⊢; linarith⟩
    · obtain ⟨h1, h2⟩ := ih q hq
      refine ⟨?_, h2⟩
      simp only [mkOffsets] at hlt ⊢
      linarith

lemma mkOffsets_pairwise (srand : ℤ → ℚ) (range : ℚ)
    (hr : ∀ x : ℤ, 0 ≤ srand x) (hrange : 0 < range) (n : ℕ) :
    List.Pairwise (· < ·) (mkOffsets srand range n).2 := by
  induction n with
  | zero => simp [mkOffsets]
  | succ n ih =>
    simp only [mkOffsets, List.pairwise_cons]
    refine ⟨fun q hq => ?_, ih⟩
    have := (mkOffsets_mem srand range hr hrange n q hq).1
    have hlt := mkOffsets_fst_lt srand range hr hrange n
    simp only [mkOffsets] at hlt
    linarith

lemma foldl_min_le_foldl_max (l : List ℚ) :
    ∀ a b : ℚ, a ≤ b → l.foldl min a ≤ l.foldl max b := by
  induction l with
  | nil => intro a b h; simpa using h
  | cons c l ih =>
    intro a b h
    exact ih (min a c) (max b c)
      (le_trans (min_le_left a c) (le_trans h (le_max_left b c)))

lemma listMin_le_listMax (l : List ℚ) : listMin l ≤ listMax l :=
  foldl_min_le_foldl_max l (l.headD 0) (l.headD 0) (le_refl _)

lemma templateRange_pos (prices : List ℚ) : 0 < templateRange prices := by
  show 0 < if listMax prices - listMin prices = 0 then 1 else listMax prices - listMin prices
  split
  · norm_num
  · rename_i h
    have := listMin_le_listMax prices
    have h0 : 0 ≤ listMax prices - listMin prices := by linarith
    exact lt_of_le_of_ne h0 (Ne.symm h)

/- ── Structure of the '1d' extension ───────────────────────────────────── -/

/-- The synthetic point that `generateExtendedData` emits for prior
period `p`, point `i` (proof-side abbreviation of the loop body). -/
def priorPoint {ρ : Type} (srand : ℤ → ℚ) (raw : List (RawPoint ρ)) (p i : ℕ) : ExtPoint ρ :=
  let labels := fittedLabels "1d" raw.length
  let template := raw.map (fun d => d.price)
  let offsets := (mkOffsets srand (templateRange template) 9).2
  let base := template.getD i 0 + offsets.getD p 0
  let noise := base * (srand ((p : ℤ) * 10000 + (i : ℤ) * 13) - 0.5) * 0.006
  { label := labels.getD (p * raw.length + i) ""
    price := toFixed2 (base + noise)
    rest := none }

/-- The current-period point that `generateExtendedData` emits for the
enumerated input pair `pr` (proof-side abbreviation of the loop body). -/
def currentPoint {ρ : Type} (raw : List (RawPoint ρ)) (pr : ℕ × RawPoint ρ) : ExtPoint ρ :=
  let labels := fittedLabels "1d" raw.length
  let lb := labels.getD (9 * raw.length + pr.1) ""
  { label := if lb = "" then pr.2.label else lb
    price := pr.2.price
    rest := some pr.2.rest }

lemma generateExtendedData_1d {ρ : Type} (srand : ℤ → ℚ) (raw : List (RawPoint ρ))
    (h2 : 2 ≤ raw.length) :
    generateExtendedData srand raw "1d" =
      ⟨((List.range 9).flatMap fun p => (List.range raw.length).map (priorPoint srand raw p)) ++
        raw.enum.map (currentPoint raw), 10, raw.length⟩ := by
  simp only [generateExtendedData, if_neg (by omega : ¬raw.length < 2)]
  rfl

/- ── C9: multi-period extension ────────────────────────────────────────── -/

/-- Rounding the template-plus-drift value with its ≤ 0.3 % noise stays
within `0.3 % + half a cent` of the drifted base. -/
lemma toFixed2_noise_bound (B r : ℚ) (h0 : 0 ≤ r) (h1 : r < 1) :
    |toFixed2 (B + B * (r - 0.5) * 0.006) - B| ≤ |B| * 0.003 + 1 / 200 := by
  set y := B + B * (r - 0.5) * 0.006 with hy
  have habs : |y - B| ≤ |B| * 0.003 := by
    rw [hy, show B + B * (r - 0.5) * 0.006 - B = B * ((r - 0.5) * 0.006) from by ring,
      abs_mul]
    have h2 : |(r - 0.5) * 0.006| ≤ 0.003 := by
      rw [abs_mul, abs_of_nonneg (by norm_num : (0:ℚ) ≤ 0.006)]
      have h3 : |r - 0.5| ≤ 0.5 := abs_le.mpr ⟨by linarith, by linarith⟩
      nlinarith
    exact mul_le_mul_of_nonneg_left h2 (abs_nonneg B)
  have ht1 := toFixed2_le y
  have ht2 := lt_toFixed2 y
  have hround : |toFixed2 y - y| ≤ 1 / 200 := abs_le.mpr ⟨by linarith, by linarith⟩
  calc |toFixed2 y - B| ≤ |toFixed2 y - y| + |y - B| := abs_sub_le _ y _
  _ ≤ 1 / 200 + |B| * 0.003 := add_le_add hround habs
  _ = |B| * 0.003 + 1 / 200 := by ring

/-- C9 (amended): extending a series of length ≥ 2 with time range '1d'
produces 10 periods (9 synthetic prior periods plus the original).
Every point of the last period keeps its original `price` and all other
fields (`rest`), and its label is rewritten to the generated calendar
label whenever that label is non-empty (otherwise — which happens for
'1d' series longer than 270 points — the original label is kept).  The
9 prior periods consist of synthetic points that carry only a label
(the generated one for that slot) and a drift-shifted price: the
template price plus that period's strictly negative offset, up to 0.3 %
noise and half-a-cent rounding; the offsets are strictly negative and
strictly increasing toward the present. -/
theorem c9_extension {ρ : Type} (srand : ℤ → ℚ)
    (hr : ∀ x : ℤ, 0 ≤ srand x ∧ srand x < 1)
    (raw : List (RawPoint ρ)) (h2 : 2 ≤ raw.length)
    (dflt : ExtPoint ρ) (dfltR : RawPoint ρ) :
    (generateExtendedData srand raw "1d").totalPeriods = 10 ∧
    (generateExtendedData srand raw "1d").periodLen = raw.length ∧
    (generateExtendedData srand raw "1d").data.length = 10 * raw.length ∧
    (∀ i : ℕ, i < raw.length →
      ((generateExtendedData srand raw "1d").data.getD (9 * raw.length + i) dflt).price =
          (raw.getD i dfltR).price ∧
      ((generateExtendedData srand raw "1d").data.getD (9 * raw.length + i) dflt).rest =
          some (raw.getD i dfltR).rest ∧
      ((generateExtendedData srand raw "1d").data.getD (9 * raw.length + i) dflt).label =
          (if (fittedLabels "1d" raw.length).getD (9 * raw.length + i) "" = ""
           then (raw.getD i dfltR).label
           else (fittedLabels "1d" raw.length).getD (9 * raw.length + i) "")) ∧
    (∀ p i : ℕ, p < 9 → i < raw.length →
      ((generateExtendedData srand raw "1d").data.getD (p * raw.length + i) dflt).rest = none ∧
      ((generateExtendedData srand raw "1d").data.getD (p * raw.length + i) dflt).label =
          (fittedLabels "1d" raw.length).getD (p * raw.length + i) "" ∧
      |((generateExtendedData srand raw "1d").data.getD (p * raw.length + i) dflt).price -
          ((raw.getD i dfltR).price +
            ((mkOffsets srand (templateRange (raw.map (fun r => r.price))) 9).2).getD p 0)| ≤
        |(raw.getD i dfltR).price +
            ((mkOffsets srand (templateRange (raw.map (fun r => r.price))) 9).2).getD p 0| *
          0.003 + 1 / 200) ∧
    (∀ q ∈ (mkOffsets srand (templateRange (raw.map (fun r => r.price))) 9).2, q < 0) ∧
    List.Pairwise (· < ·) (mkOffsets srand (templateRange (raw.map (fun r => r.price))) 9).2 := by
  have hrng : 0 < templateRange (raw.map (fun r => r.price)) :=
    templateRange_pos (raw.map (fun r => r.price))
  have hr0 : ∀ x : ℤ, 0 ≤ srand x := fun x => (hr x).1
  have hplen :
      (((List.range 9).flatMap fun p =>
          (List.range raw.length).map (priorPoint srand raw p))).length = 9 * raw.length :=
    length_range_flatMap_map 9 raw.length (priorPoint srand raw)
  have hshape := generateExtendedData_1d srand raw h2
  have hcur : ∀ i : ℕ, i < raw.length →
      (generateExtendedData srand raw "1d").data.getD (9 * raw.length + i) dflt =
        currentPoint raw (i, raw.getD i dfltR) := by
    intro i hi
    rw [hshape]
    show ((((List.range 9).flatMap fun p =>
        (List.range raw.length).map (priorPoint srand raw p)) ++
          raw.enum.map (currentPoint raw)).getD (9 * raw.length + i) dflt) = _
    rw [List.getD_eq_getElem?_getD,
      List.getElem?_append_right (by rw [hplen]; omega), hplen,
      show 9 * raw.length + i - 9 * raw.length = i from by omega,
      ← List.getD_eq_getElem?_getD, getD_enum_map raw (currentPoint raw) i hi dflt dfltR]
  have hpri : ∀ p i : ℕ, p < 9 → i < raw.length →
      (generateExtendedData srand raw "1d").data.getD (p * raw.length + i) dflt =
        priorPoint srand raw p i := by
    intro p i hp hi
    rw [hshape]
    show ((((List.range 9).flatMap fun p =>
        (List.range raw.length).map (priorPoint srand raw p)) ++
          raw.enum.map (currentPoint raw)).getD (p * raw.length + i) dflt) = _
    have hidx : p * raw.length + i <
        (((List.range 9).flatMap fun p =>
          (List.range raw.length).map (priorPoint srand raw p))).length := by
      rw [hplen]
      calc p * raw.length + i < p * raw.length + raw.length := by omega
      _ = (p + 1) * raw.length := by ring
      _ ≤ 9 * raw.length := Nat.mul_le_mul_right raw.length hp
    rw [List.getD_eq_getElem?_getD, List.getElem?_append_left hidx,
      ← List.getD_eq_getElem?_getD, getD_range_flatMap_map (priorPoint srand raw) dflt hp hi]
  refine ⟨by rw [hshape], by rw [hshape], ?_, ?_, ?_, ?_, ?_⟩
  · rw [hshape]
    rw [show (ExtResult.mk (((List.range 9).flatMap fun p =>
        (List.range raw.length).map (priorPoint srand raw p)) ++
          raw.enum.map (currentPoint raw)) 10 raw.length).data =
        (((List.range 9).flatMap fun p =>
        (List.range raw.length).map (priorPoint srand raw p)) ++
          raw.enum.map (currentPoint raw)) from rfl]
    rw [List.length_append, hplen, List.length_map, List.enum_length]
    ring
  · intro i hi
    rw [hcur i hi]
    refine ⟨rfl, rfl, ?_⟩
    simp only [currentPoint]
  · intro p i hp hi
    rw [hpri p i hp hi]
    simp only [priorPoint]
    refine ⟨trivial, trivial, ?_⟩
    rw [show ((raw.map (fun r => r.price)).getD i 0) = (raw.getD i dfltR).price from
      getD_map (fun r => r.price) raw i hi 0 dfltR]
    exact toFixed2_noise_bound _ _ (hr _).1 (hr _).2
  · exact fun q hq => (mkOffsets_mem srand _ hr0 hrng 9 q hq).2
  · exact mkOffsets_pairwise srand _ hr0 hrng 9

/- ── C9 witness and counterexample material ────────────────────────────── -/

lemma gtdGo_length (n : ℕ) (d : ℤ) : (gtdGo n d).length = n := by
  induction n generalizing d with
  | zero => rfl
  | succ n ih => simp [gtdGo, ih]

lemma getTradingDays_length (endDay : ℤ) (count : ℕ) :
    (getTradingDays endDay count).length = count := by
  rw [getTradingDays, List.length_reverse, gtdGo_length]

/-- The host's `seededRandom` replaced by the constant `0` (a legitimate
value of `x - Math.floor x`). -/
def srandZero : ℤ → ℚ := fun _ => 0

/-- A two-point input series. -/
def rawPair : List (RawPoint Unit) :=
  [⟨"9:30 AM", 100, ()⟩, ⟨"9:45 AM", 101, ()⟩]

/-- A 271-point input series (one real label, constant price) — longer
than the 270 calendar labels the '1d' branch can generate. -/
def raw271 : List (RawPoint Unit) := List.replicate 271 ⟨"9:30 AM", 100, ()⟩

/-- Witness for the amended C9, instantiated with the constant-zero
`seededRandom` and the two-point series. -/
theorem c9_extension_witness :
    (∀ x : ℤ, 0 ≤ srandZero x ∧ srandZero x < 1) ∧ 2 ≤ rawPair.length ∧
      (generateExtendedData srandZero rawPair "1d").totalPeriods = 10 ∧
      (generateExtendedData srandZero rawPair "1d").data.length = 10 * rawPair.length := by
  have hs : ∀ x : ℤ, 0 ≤ srandZero x ∧ srandZero x < 1 :=
    fun x => ⟨le_refl 0, by norm_num [srandZero]⟩
  have h2 : 2 ≤ rawPair.length := by norm_num [rawPair]
  have h := c9_extension srandZero hs rawPair h2 ⟨"", 0, none⟩ ⟨"", 0, ()⟩
  exact ⟨hs, h2, h.1, h.2.2.1⟩

/-- The label list generated for a 271-point '1d' series has only 270
entries (10 trading days × 27 intraday times). -/
lemma extLabels_1d_271_length : (extLabels "1d" 271 10).length = 270 := by
  rw [show extLabels "1d" 271 10 =
      (getTradingDays refDateNum 10).flatMap
        (fun day => TIMES_27.map (fun t => fmtMD day ++ " " ++ t)) from rfl]
  rw [length_flatMap_const _ _ 27 (fun a _ => by rw [List.length_map]; rfl),
    getTradingDays_length]

/-- Padding fills the first 2440 label slots with `""`, in particular
slot 2439 — the first point of the current period. -/
lemma fittedLabels_1d_271_2439 : (fittedLabels "1d" 271).getD 2439 "" = "" := by
  rw [show fittedLabels "1d" 271 = fitLabels (extLabels "1d" 271 10) 2710 from rfl]
  rw [show fitLabels (extLabels "1d" 271 10) 2710 =
      (if 2710 < (extLabels "1d" 271 10).length
       then List.replicate (2710 - ((extLabels "1d" 271 10).drop ((extLabels "1d" 271 10).length - 2710)).length) "" ++
         (extLabels "1d" 271 10).drop ((extLabels "1d" 271 10).length - 2710)
       else List.replicate (2710 - (extLabels "1d" 271 10).length) "" ++ extLabels "1d" 271 10) from by
    unfold fitLabels
    split <;> rfl]
  rw [if_neg (by rw [extLabels_1d_271_length]; norm_num), extLabels_1d_271_length]
  rw [List.getD_eq_getElem?_getD,
    List.getElem?_append_left (by rw [List.length_replicate]; norm_num)]
  rw [List.getElem?_replicate, if_pos (by norm_num)]
  rfl

set_option maxRecDepth 40000 in
/-- Counterexample to C9 as stated: for a '1d' series of 271 points the
generated label list covers only the last 270 of the 2710 slots, so the
first point of the most recent period (slot 2439) falls back to its
original label — the time label is not rewritten, and the prior-period
slots below 2440 carry empty rather than calendar labels. -/
theorem c9_long_series_keeps_original_label :
    ((generateExtendedData srandZero raw271 "1d").data.getD 2439
        ⟨"", 0, none⟩).label = "9:30 AM" ∧
      (fittedLabels "1d" 271).getD 2439 "" = "" ∧ ("9:30 AM" : String) ≠ "" := by
  have hlen : raw271.length = 271 := by rw [raw271, List.length_replicate]
  have h2 : 2 ≤ raw271.length := by rw [hlen]; norm_num
  have hplen := length_range_flatMap_map 9 raw271.length (priorPoint srandZero raw271)
  have hget : (generateExtendedData srandZero raw271 "1d").data.getD 2439 ⟨"", 0, none⟩ =
      currentPoint raw271 (0, raw271.getD 0 ⟨"", 0, ()⟩) := by
    rw [generateExtendedData_1d srandZero raw271 h2]
    show ((((List.range 9).flatMap fun p =>
        (List.range raw271.length).map (priorPoint srandZero raw271 p)) ++
          raw271.enum.map (currentPoint raw271)).getD 2439 ⟨"", 0, none⟩) = _
    rw [List.getD_eq_getElem?_getD,
      List.getElem?_append_right (by rw [hplen, hlen])]
    rw [hplen, hlen]
    rw [show (2439 - 9 * 271 : ℕ) = 0 from by norm_num]
    rw [← List.getD_eq_getElem?_getD]
    exact getD_enum_map raw271 (currentPoint raw271) 0 (by rw [hlen]; norm_num) _ _
  have hcp : (currentPoint raw271 (0, raw271.getD 0 ⟨"", 0, ()⟩)).label =
      (if (fittedLabels "1d" raw271.length).getD (9 * raw271.length + 0) "" = ""
       then (raw271.getD 0 ⟨"", 0, ()⟩).label
       else (fittedLabels "1d" raw271.length).getD (9 * raw271.length + 0) "") := by
    simp only [currentPoint]
  refine ⟨?_, fittedLabels_1d_271_2439, by decide⟩
  rw [hget, hcp, hlen, show (9 * 271 + 0 : ℕ) = 2439 from by norm_num,
    fittedLabels_1d_271_2439, if_pos rfl]
  rw [show raw271.getD 0 ⟨"", 0, ()⟩ = ⟨"9:30 AM", 100, ()⟩ from by
    rw [raw271]; rfl]
